import Mathlib

/-!
# Verification of the verrou lock library against its specification

Shallow embedding of the `MemoryStore` driver
(`src/packages/verrou/src/drivers/memory.ts`) and the `Lock` state machine
(`src/unnamed/part_002`, i.e. `src/lock.ts`).

Modelling conventions:
* JavaScript timestamps (`Date.now()`) are natural numbers; every internal
  clock read of an operation is passed in as an explicit parameter, in
  program order.
* `Number.POSITIVE_INFINITY` in an `expiresAt` field is the `ExpiresAt.inf`
  constructor; an unset (`undefined`) field is `ExpiresAt.undef`.  JavaScript
  truthiness (`lock.expiresAt && ...`, `ttl ? ... : ...`) is translated
  explicitly, including the `0`-is-falsy cases.
* The `async-mutex` primitive is a held/free flag; its releaser function is
  modelled by the pair `hasReleaser` (the `lock.releaser` field is set) and
  `releaserLive` (calling it still releases: the library's releaser is
  idempotent, a second call is a no-op).
* Fallible operations return `Except`; `save`'s `try/catch` swallows the
  acquisition failure, so `save` totally returns a `Bool` and never throws.
* Stores are finite maps, embedded as association lists with JS `Map`
  get/set semantics.
-/

/-- The `expiresAt` field of a store entry: unset, a finite timestamp, or
`Number.POSITIVE_INFINITY`. -/
inductive ExpiresAt where
  | undef : ExpiresAt
  | fin (t : Nat) : ExpiresAt
  | inf : ExpiresAt
  deriving DecidableEq, Repr

/-- `MemoryLockEntry` from `memory.ts`: the mutex held/free state, the
`releaser` field (present / still effective), the recorded owner, and the
expiry timestamp. -/
structure MemoryLockEntry where
  locked : Bool
  hasReleaser : Bool
  releaserLive : Bool
  owner : String
  expiresAt : ExpiresAt
  deriving DecidableEq, Repr

/-- The error taxonomy of the library plus the outcome of arbitrary user
callbacks, and a marker for exhausting the fuel of the (possibly unbounded)
retry loop — a modelling artifact, never produced under sufficient fuel. -/
inductive JsError where
  | lockTimeout : JsError
  | lockAlreadyAcquired : JsError
  | lockNotOwned : JsError
  | invalidArguments : JsError
  | outOfFuel : JsError
  | callbackError (msg : String) : JsError
  deriving DecidableEq, Repr

instance {ε α : Type} [DecidableEq ε] [DecidableEq α] : DecidableEq (Except ε α) := by
  intro a b
  cases a <;> cases b <;> first
    | (apply isFalse; intro h; exact Except.noConfusion h)
    | (rename_i x y
       exact if h : x = y then isTrue (by rw [h]) else
         isFalse (by intro hc; cases hc; exact h rfl))

/-- JS `Map.get`: lookup in an association list. -/
def mapGet (m : List (String × MemoryLockEntry)) (k : String) : Option MemoryLockEntry :=
  match m with
  | [] => none
  | (k', v) :: rest => if k' = k then some v else mapGet rest k

/-- JS `Map.set`: replace the binding if present, otherwise append. -/
def mapSet (m : List (String × MemoryLockEntry)) (k : String) (v : MemoryLockEntry) :
    List (String × MemoryLockEntry) :=
  match m with
  | [] => [(k, v)]
  | (k', v') :: rest => if k' = k then (k, v) :: rest else (k', v') :: mapSet rest k v

/-- The `#locks` map of `MemoryStore`. -/
structure MemoryStore where
  locks : List (String × MemoryLockEntry)
  deriving DecidableEq, Repr

/-- `lock.releaser?.()`: calling the stored releaser releases the mutex when
the field is set and that releaser has not been consumed yet; otherwise it is
a no-op (the async-mutex releaser is idempotent). -/
def callReleaser (e : MemoryLockEntry) : MemoryLockEntry :=
  if e.hasReleaser && e.releaserLive then
    { e with locked := false, releaserLive := false }
  else e

/-- `MemoryStore.#computeExpiresAt`: `ttl ? Date.now() + ttl : Number.POSITIVE_INFINITY`.
A `null` ttl — and also the falsy `0` — yields the infinity sentinel. -/
def computeExpiresAt (now : Nat) (ttl : Option Nat) : ExpiresAt :=
  match ttl with
  | some t => if t ≠ 0 then .fin (now + t) else .inf
  | none => .inf

/-- `MemoryStore.#isLockEntryExpired`: `lock.expiresAt && lock.expiresAt < Date.now()`.
An unset field, the infinity sentinel, and the falsy timestamp `0` are all
"not expired". -/
def isLockEntryExpired (e : MemoryLockEntry) (now : Nat) : Bool :=
  match e.expiresAt with
  | .undef => false
  | .inf => false
  | .fin t => t ≠ 0 && decide (t < now)

/-- `MemoryStore.getOrCreateForKey`: return the existing entry, or create a
fresh one seeded with the caller's owner.  Returns the entry together with
the (possibly extended) store. -/
def MemoryStore.getOrCreateForKey (s : MemoryStore) (key owner : String) :
    MemoryLockEntry × MemoryStore :=
  match mapGet s.locks key with
  | some e => (e, s)
  | none =>
      let e : MemoryLockEntry :=
        { locked := false, hasReleaser := false, releaserLive := false,
          owner := owner, expiresAt := .undef }
      (e, ⟨mapSet s.locks key e⟩)

/-- `MemoryStore.save`: get-or-create the entry, lazily release it when its
expiry has passed, then try a non-blocking acquisition of the mutex.  The
`try/catch` of the source swallows the failed acquisition, so the result is
a plain `Bool`.  `now1` is the clock read of the expiry check, `now2` the
read of `#computeExpiresAt`.  Note the source only seeds `owner` on entry
creation; a successful re-acquisition does not update it. -/
def MemoryStore.save (s : MemoryStore) (key owner : String) (ttl : Option Nat)
    (now1 now2 : Nat) : Bool × MemoryStore :=
  let (entry, s1) := s.getOrCreateForKey key owner
  let entry2 := if isLockEntryExpired entry now1 then callReleaser entry else entry
  if entry2.locked then
    (false, ⟨mapSet s1.locks key entry2⟩)
  else
    (true, ⟨mapSet s1.locks key
      { entry2 with locked := true, hasReleaser := true, releaserLive := true,
                    expiresAt := computeExpiresAt now2 ttl }⟩)

/-- `MemoryStore.extend`: owner-checked update of `expiresAt`; the held/free
state of the mutex is not consulted. -/
def MemoryStore.extend (s : MemoryStore) (key owner : String) (duration : Nat)
    (now : Nat) : Except JsError MemoryStore :=
  match mapGet s.locks key with
  | none => .error .lockNotOwned
  | some e =>
      if e.owner ≠ owner then .error .lockNotOwned
      else .ok ⟨mapSet s.locks key { e with expiresAt := computeExpiresAt now (some duration) }⟩

/-- `MemoryStore.delete`: throws `E_LOCK_NOT_OWNED` when the entry is absent,
when its `releaser` field is unset, or on owner mismatch; otherwise calls the
stored releaser.  The `releaser` field itself survives the call. -/
def MemoryStore.delete (s : MemoryStore) (key owner : String) :
    Except JsError MemoryStore :=
  match mapGet s.locks key with
  | none => .error .lockNotOwned
  | some e =>
      if !e.hasReleaser then .error .lockNotOwned
      else if e.owner ≠ owner then .error .lockNotOwned
      else .ok ⟨mapSet s.locks key (callReleaser e)⟩

/-- `MemoryStore.forceDelete`: call the stored releaser when the entry
exists; silent no-op otherwise. -/
def MemoryStore.forceDelete (s : MemoryStore) (key : String) : MemoryStore :=
  match mapGet s.locks key with
  | none => s
  | some e => ⟨mapSet s.locks key (callReleaser e)⟩

/-- `MemoryStore.exists`: present, not expired, and the mutex reports held. -/
def MemoryStore.existsKey (s : MemoryStore) (key : String) (now : Nat) : Bool :=
  match mapGet s.locks key with
  | none => false
  | some e => if isLockEntryExpired e now then false else e.locked

/-! ## The `Lock` state machine (`src/lock.ts`) -/

/-- The effective `attempts` bound of the retry loop: a JS number that may be
`Number.POSITIVE_INFINITY`. -/
inductive AttemptsMax where
  | fin (n : Nat) : AttemptsMax
  | inf : AttemptsMax
  deriving DecidableEq, Repr

/-- `attemptsDone++ < attemptsMax` for a finite counter against a possibly
infinite bound. -/
def attemptsLt (d : Nat) (m : AttemptsMax) : Bool :=
  match m with
  | .fin n => decide (d < n)
  | .inf => true

/-- `attemptsDone === attemptsMax`: a finite counter never equals infinity. -/
def attemptsEqMax (d : Nat) (m : AttemptsMax) : Bool :=
  match m with
  | .fin n => decide (d = n)
  | .inf => false

/-- `timeout && elapsed > timeout`: the check is skipped for an unset — or
falsy `0` — timeout. -/
def timeoutHit (timeout : Option Nat) (elapsed : Nat) : Bool :=
  match timeout with
  | none => false
  | some t => t ≠ 0 && decide (t < elapsed)

/-- `this.#expirationTime = this.#ttl ? now + this.#ttl : null`, with `now`
the clock read taken at the top of the successful loop iteration. -/
def localExpirationTime (ttl : Option Nat) (now : Nat) : Option Nat :=
  match ttl with
  | some t => if t ≠ 0 then some (now + t) else none
  | none => none

/-- Outcome of one `Lock.acquire` invocation: success (with the attempt index
that succeeded and the new local `expirationTime`), `E_LOCK_TIMEOUT` via the
attempts check, `E_LOCK_TIMEOUT` via the elapsed-timeout check, normal return
without any acquisition (the while condition was false at entry, e.g.
`attempts = 0`), or fuel exhaustion (modelling artifact). -/
inductive AcquireResult where
  | acquired (attempt : Nat) (expirationTime : Option Nat) : AcquireResult
  | timeoutAttempts (attempt : Nat) : AcquireResult
  | timeoutElapsed (attempt : Nat) : AcquireResult
  | exitNoAcquire (attemptsDone : Nat) : AcquireResult
  | outOfFuel : AcquireResult
  deriving DecidableEq, Repr

/-- The retry loop of `Lock.acquire`, with the store abstracted by the
sequence of its `save` replies (`saveRes i` is the result of the `i`-th call,
1-indexed — the `Lock` is polymorphic in its store).  `nowAt i` is the
`Date.now()` read at the top of iteration `i`, `elapsedAt i` the elapsed
wall-clock value `Date.now() - start` observed by the timeout check of
iteration `i`.  Each iteration performs exactly one `save` call, so the
attempt index recorded in the result counts the `save` calls made. -/
def acquireLoop (attemptsMax : AttemptsMax) (timeout : Option Nat) (ttl : Option Nat)
    (saveRes : Nat → Bool) (nowAt elapsedAt : Nat → Nat) :
    Nat → Nat → AcquireResult
  | 0, _ => .outOfFuel
  | fuel + 1, attemptsDone =>
      if attemptsLt attemptsDone attemptsMax then
        let i := attemptsDone + 1
        if saveRes i then
          .acquired i (localExpirationTime ttl (nowAt i))
        else if attemptsEqMax i attemptsMax then
          .timeoutAttempts i
        else if timeoutHit timeout (elapsedAt i) then
          .timeoutElapsed i
        else
          acquireLoop attemptsMax timeout ttl saveRes nowAt elapsedAt fuel i
      else
        .exitNoAcquire attemptsDone

/-- `Lock.acquire` instantiated with a `MemoryStore`, threading the store
through every `save` call.  `nowChk i` / `nowExp i` are the two clock reads
inside the `i`-th `save`; `elapsedAt i` is the elapsed value at the timeout
check of iteration `i`.  The result is the JS outcome (success or
`E_LOCK_TIMEOUT`) paired with the store state left behind. -/
def Lock.acquireMem (key owner : String) (ttl : Option Nat) (attemptsMax : AttemptsMax)
    (timeout : Option Nat) (nowChk nowExp elapsedAt : Nat → Nat) :
    Nat → Nat → MemoryStore → Except JsError Unit × MemoryStore
  | 0, _, s => (.error .outOfFuel, s)
  | fuel + 1, attemptsDone, s =>
      if attemptsLt attemptsDone attemptsMax then
        let i := attemptsDone + 1
        match MemoryStore.save s key owner ttl (nowChk i) (nowExp i) with
        | (true, s1) => (.ok (), s1)
        | (false, s1) =>
          if attemptsEqMax i attemptsMax then (.error .lockTimeout, s1)
          else if timeoutHit timeout (elapsedAt i) then (.error .lockTimeout, s1)
          else Lock.acquireMem key owner ttl attemptsMax timeout nowChk nowExp elapsedAt fuel i s1
      else
        (.ok (), s)

/-- `Lock.run`:
`try { await this.acquire(); return await callback() } finally { await this.release() }`
over an explicit shared mutable state `S`.  Each of the three awaited calls
may throw and may mutate the state; per JS `try/finally`, the `finally`
block always runs, and an error it throws supersedes the in-flight body
outcome. -/
def Lock.run {E T S : Type} (acq : S → Except E Unit × S) (cb : S → Except E T × S)
    (rel : S → Except E Unit × S) (s : S) : Except E T × S :=
  let body : Except E T × S :=
    match acq s with
    | (.ok _, sa) =>
        match cb sa with
        | (.ok t, sc) => (.ok t, sc)
        | (.error e, sc) => (.error e, sc)
    | (.error e, sa) => (.error e, sa)
  match rel body.2 with
  | (.ok _, sr) => (body.1, sr)
  | (.error e, sr) => (.error e, sr)

/-- `Lock.release` (`await this.#lockStore.delete(this.#key, this.#owner)`)
as a state-threaded call on a `MemoryStore`; a throwing `delete` leaves the
map untouched. -/
def Lock.releaseMem (key owner : String) (s : MemoryStore) :
    Except JsError Unit × MemoryStore :=
  match MemoryStore.delete s key owner with
  | .ok s1 => (.ok (), s1)
  | .error e => (.error e, s)

/-- The duration resolution at the top of `Lock.extend`:
`const resolvedTtl = ttl ? resolveDuration(ttl) : this.#ttl` followed by the
`if (!resolvedTtl) throw` guard.  Durations are taken as already-numeric
milliseconds (string parsing is out of the system's scope; on a numeric
duration the resolver is the identity).  A falsy `0` argument falls back to
the lock's configured ttl, and a falsy resolved value (`null` or `0`) yields
`none`, i.e. `InvalidArgumentsException`. -/
def resolveExtendTtl (lockTtl : Option Nat) (ttlArg : Option Nat) : Option Nat :=
  let r : Option Nat :=
    match ttlArg with
    | some t => if t ≠ 0 then some t else lockTtl
    | none => lockTtl
  match r with
  | some d => if d ≠ 0 then some d else none
  | none => none

/-- `Lock.extend` with the store's `extend` call abstracted by its outcome:
resolve the duration, throw `InvalidArgumentsException` when unresolvable,
read `now`, call the store, and update the local `expirationTime` only after
the store call returned.  The result pairs the JS outcome with the lock's
`expirationTime` field after the call. -/
def Lock.extendModel (lockTtl expirationTime ttlArg : Option Nat)
    (storeResult : Except JsError Unit) (now : Nat) :
    Except JsError Unit × Option Nat :=
  match resolveExtendTtl lockTtl ttlArg with
  | none => (.error .invalidArguments, expirationTime)
  | some d =>
      match storeResult with
      | .error e => (.error e, expirationTime)
      | .ok _ => (.ok (), some (now + d))

/-- `Lock.getRemainingTime`: `null` without an expiration estimate, else the
signed distance `expirationTime - Date.now()`. -/
def Lock.getRemainingTime (expirationTime : Option Nat) (now : Nat) : Option Int :=
  match expirationTime with
  | none => none
  | some t => some ((t : Int) - (now : Int))

/-- One successful iteration of the `Lock.acquire` loop against a
`MemoryStore`: `now = Date.now()` is read locally (`nowLocal`), then the
store's `save` runs with its own two later clock reads, and on `true` the
local `expirationTime` is computed from `nowLocal`.  Returns `none` when the
store refuses the acquisition. -/
def Lock.acquireAttemptMem (key owner : String) (ttl : Option Nat) (s : MemoryStore)
    (nowLocal nowChk nowExp : Nat) : Option (Option Nat × MemoryStore) :=
  match MemoryStore.save s key owner ttl nowChk nowExp with
  | (true, s1) => some (localExpirationTime ttl nowLocal, s1)
  | (false, _) => none

/-- `Lock.extend` composed with `MemoryStore.extend`: `nowLocal` is the
lock's own clock read (taken before the store call), `nowStore` the store's
read inside `#computeExpiresAt`.  Returns the JS outcome, the lock's
`expirationTime` afterwards, and the store state. -/
def Lock.extendMem (key owner : String) (lockTtl expirationTime ttlArg : Option Nat)
    (s : MemoryStore) (nowLocal nowStore : Nat) :
    Except JsError Unit × Option Nat × MemoryStore :=
  match resolveExtendTtl lockTtl ttlArg with
  | none => (.error .invalidArguments, expirationTime, s)
  | some d =>
      match MemoryStore.extend s key owner d nowStore with
      | .error e => (.error e, expirationTime, s)
      | .ok s1 => (.ok (), some (nowLocal + d), s1)

/-! ## Map helper lemmas -/

theorem mapGet_mapSet_self (m : List (String × MemoryLockEntry)) (k : String)
    (v : MemoryLockEntry) : mapGet (mapSet m k v) k = some v := by
  induction m with
  | nil => simp [mapSet, mapGet]
  | cons hd tl ih =>
      obtain ⟨k', v'⟩ := hd
      by_cases hk : k' = k
      · simp [mapSet, hk, mapGet]
      · simp [mapSet, hk, mapGet, ih]

theorem mapSet_of_mapGet_eq (m : List (String × MemoryLockEntry)) (k : String)
    (v : MemoryLockEntry) (h : mapGet m k = some v) : mapSet m k v = m := by
  induction m with
  | nil => simp [mapGet] at h
  | cons hd tl ih =>
      obtain ⟨k', v'⟩ := hd
      by_cases hk : k' = k
      · subst hk
        simp [mapGet] at h
        simp [mapSet, h]
      · simp [mapGet, hk] at h
        simp [mapSet, hk, ih h]

/-- A held entry whose lease is unexpired at the check read refuses any
`save` and leaves the store unchanged. -/
theorem save_of_held_unexpired (s : MemoryStore) (key o : String) (ttl : Option Nat)
    (now1 now2 : Nat) (e : MemoryLockEntry)
    (hlook : mapGet s.locks key = some e)
    (hlive : isLockEntryExpired e now1 = false)
    (hheld : e.locked = true) :
    MemoryStore.save s key o ttl now1 now2 = (false, s) := by
  unfold MemoryStore.save MemoryStore.getOrCreateForKey
  simp only [hlook, hlive, Bool.false_eq_true, if_false, hheld, if_true]
  rw [mapSet_of_mapGet_eq s.locks key e hlook]

/-! ## Claim theorems -/

/-- C1: mutual exclusion of `save`.  While the entry for a key is held and
its lease unexpired, any `save` call — by any owner — returns `false` without
throwing (the result type is a total `Bool × MemoryStore`) and leaves the
store unchanged, so the current holder keeps the key's exclusive primitive;
and when the entry's primitive is free, the next `save` (by any owner)
succeeds, so a free entry may be reused. -/
theorem save_mutual_exclusion (s : MemoryStore) (key o : String) (ttl : Option Nat)
    (now1 now2 : Nat) (e : MemoryLockEntry)
    (hlook : mapGet s.locks key = some e)
    (hlive : isLockEntryExpired e now1 = false) :
    (e.locked = true → MemoryStore.save s key o ttl now1 now2 = (false, s)) ∧
    (e.locked = false → (MemoryStore.save s key o ttl now1 now2).1 = true) := by
  constructor
  · intro hheld
    exact save_of_held_unexpired s key o ttl now1 now2 e hlook hlive hheld
  · intro hfree
    unfold MemoryStore.save MemoryStore.getOrCreateForKey
    simp [hlook, hlive, hfree]

/-- C1 witness: a held, unexpired entry refuses a competing `save` and keeps
the store intact; a free entry grants the next `save`. -/
theorem save_mutual_exclusion_witness :
    MemoryStore.save ⟨[("k", ⟨true, true, true, "o1", .inf⟩)]⟩ "k" "o2" (some 5) 3 4
      = (false, ⟨[("k", ⟨true, true, true, "o1", .inf⟩)]⟩) ∧
    (MemoryStore.save ⟨[("k", ⟨false, true, false, "o1", .inf⟩)]⟩ "k" "o2" (some 5) 3 4).1
      = true :=
  ⟨(save_mutual_exclusion ⟨[("k", ⟨true, true, true, "o1", .inf⟩)]⟩ "k" "o2" (some 5) 3 4
      ⟨true, true, true, "o1", .inf⟩ (by decide) (by decide)).1 rfl,
   (save_mutual_exclusion ⟨[("k", ⟨false, true, false, "o1", .inf⟩)]⟩ "k" "o2" (some 5) 3 4
      ⟨false, true, false, "o1", .inf⟩ (by decide) (by decide)).2 rfl⟩

/-- C2: evaluation of the code at the failing input.  `o1` creates and
acquires the entry for `"k"`, releases it, then `o2` re-acquires it with
`save` returning `true` — yet the entry's recorded owner is still `"o1"`,
so the subsequent `delete`/`extend` by `o2` fail with `E_LOCK_NOT_OWNED`,
contradicting the claim (and the specification's "record the acquiring
owner"): `MemoryStore.save` only seeds the owner on entry creation and never
updates it on a successful re-acquisition. -/
theorem save_does_not_record_new_owner :
    MemoryStore.save ⟨[]⟩ "k" "o1" none 0 0
      = (true, ⟨[("k", ⟨true, true, true, "o1", .inf⟩)]⟩) ∧
    MemoryStore.delete ⟨[("k", ⟨true, true, true, "o1", .inf⟩)]⟩ "k" "o1"
      = .ok ⟨[("k", ⟨false, true, false, "o1", .inf⟩)]⟩ ∧
    MemoryStore.save ⟨[("k", ⟨false, true, false, "o1", .inf⟩)]⟩ "k" "o2" none 5 5
      = (true, ⟨[("k", ⟨true, true, true, "o1", .inf⟩)]⟩) ∧
    MemoryStore.delete ⟨[("k", ⟨true, true, true, "o1", .inf⟩)]⟩ "k" "o2"
      = .error .lockNotOwned ∧
    MemoryStore.extend ⟨[("k", ⟨true, true, true, "o1", .inf⟩)]⟩ "k" "o2" 7 6
      = .error .lockNotOwned := by
  decide

/-- C6 counterexample: `delete` on a key that was held and then released
does not fail.  After `save` then `delete`, the entry's mutex is free
(`locked = false`) but its `releaser` field is still set, so a second
`delete` passes the `!mutex.releaser` check and returns normally (the stale
releaser call is a no-op) — the claim requires `E_LOCK_NOT_OWNED` here. -/
theorem delete_after_release_no_error :
    MemoryStore.save ⟨[]⟩ "k" "o" none 0 0
      = (true, ⟨[("k", ⟨true, true, true, "o", .inf⟩)]⟩) ∧
    MemoryStore.delete ⟨[("k", ⟨true, true, true, "o", .inf⟩)]⟩ "k" "o"
      = .ok ⟨[("k", ⟨false, true, false, "o", .inf⟩)]⟩ ∧
    (⟨false, true, false, "o", .inf⟩ : MemoryLockEntry).locked = false ∧
    MemoryStore.delete ⟨[("k", ⟨false, true, false, "o", .inf⟩)]⟩ "k" "o"
      = .ok ⟨[("k", ⟨false, true, false, "o", .inf⟩)]⟩ := by
  decide

/-- C6 amended: `delete` fails with `E_LOCK_NOT_OWNED` if and only if no
entry exists for the key, or the entry has no recorded `releaser` (the key
was never successfully saved), or the recorded owner differs; held/free
state of the mutex is not part of the check, so a released entry whose
(stale, idempotent) releaser is still recorded is deleted without error. -/
theorem delete_error_characterisation (s : MemoryStore) (key owner : String) :
    MemoryStore.delete s key owner = .error .lockNotOwned ↔
      (mapGet s.locks key = none ∨
        ∃ e, mapGet s.locks key = some e ∧ (e.hasReleaser = false ∨ e.owner ≠ owner)) := by
  unfold MemoryStore.delete
  cases h : mapGet s.locks key with
  | none => simp
  | some e =>
      by_cases hr : e.hasReleaser
      · by_cases ho : e.owner = owner
        · simp [hr, ho]
        · simp [hr, ho]
      · simp [Bool.not_eq_true] at hr
        simp [hr]

/-- C6 amended, witness: an existing held entry with a different recorded
owner makes `delete` fail with `E_LOCK_NOT_OWNED`. -/
theorem delete_error_characterisation_witness :
    MemoryStore.delete ⟨[("q", ⟨true, true, true, "a", .inf⟩)]⟩ "q" "b"
      = .error .lockNotOwned :=
  (delete_error_characterisation ⟨[("q", ⟨true, true, true, "a", .inf⟩)]⟩ "q" "b").mpr
    (Or.inr ⟨⟨true, true, true, "a", .inf⟩, by decide, Or.inr (by decide)⟩)

/-- C7: lazy expiry reclamation.  When the entry for a key is held by a
previous holder (mutex locked, live releaser recorded) and its `expiresAt`
was computed from a numeric nonzero ttl whose expiry lies strictly in the
past of `save`'s expiry-check clock read, a new `save` — without any
intervening `delete` or `forceDelete` — force-releases the stale hold
inside `save` and returns `true`. -/
theorem save_lazy_expiry_reclamation (s : MemoryStore) (key owner : String)
    (ttl : Option Nat) (e : MemoryLockEntry) (t0 ttl0 now1 now2 : Nat)
    (hlook : mapGet s.locks key = some e)
    (_hheld : e.locked = true)
    (hrel : e.hasReleaser = true)
    (hlive : e.releaserLive = true)
    (hexp : e.expiresAt = computeExpiresAt t0 (some ttl0))
    (httl : ttl0 ≠ 0)
    (hpast : t0 + ttl0 < now1) :
    (MemoryStore.save s key owner ttl now1 now2).1 = true := by
  have hfin : e.expiresAt = .fin (t0 + ttl0) := by
    rw [hexp]; unfold computeExpiresAt; simp [httl]
  have hexpired : isLockEntryExpired e now1 = true := by
    unfold isLockEntryExpired
    rw [hfin]
    simp [hpast]
    omega
  unfold MemoryStore.save MemoryStore.getOrCreateForKey
  simp [hlook, hexpired, callReleaser, hrel, hlive]

/-- C7 witness: an entry whose lease (`expiresAt = 10`, from `t0 = 4`,
`ttl = 6`) is past at the check read `11` is reclaimed by a new owner's
`save`. -/
theorem save_lazy_expiry_reclamation_witness :
    (MemoryStore.save ⟨[("k", ⟨true, true, true, "a", .fin 10⟩)]⟩ "k" "b" (some 5) 11 12).1
      = true :=
  save_lazy_expiry_reclamation ⟨[("k", ⟨true, true, true, "a", .fin 10⟩)]⟩ "k" "b" (some 5)
    ⟨true, true, true, "a", .fin 10⟩ 4 6 11 12 (by decide) rfl rfl rfl (by decide)
    (by decide) (by decide)

theorem acquireLoop_all_false (n : Nat) (timeout ttl : Option Nat) (saveRes : Nat → Bool)
    (nowAt elapsedAt : Nat → Nat)
    (hsave : ∀ i, saveRes i = false)
    (htimeout : ∀ i, timeoutHit timeout (elapsedAt i) = false) :
    ∀ fuel d, d < n → n - d ≤ fuel →
      acquireLoop (.fin n) timeout ttl saveRes nowAt elapsedAt fuel d = .timeoutAttempts n := by
  intro fuel
  induction fuel with
  | zero => intro d hd hf; omega
  | succ fuel ih =>
      intro d hd hf
      unfold acquireLoop
      have h1 : attemptsLt d (.fin n) = true := by simp [attemptsLt, hd]
      by_cases hdn : d + 1 = n
      · subst hdn
        have h2 : attemptsEqMax (d + 1) (.fin (d + 1)) = true := by simp [attemptsEqMax]
        simp [h1, hsave, h2]
      · have h2 : attemptsEqMax (d + 1) (.fin n) = false := by simp [attemptsEqMax, hdn]
        simp [h1, hsave, h2, htimeout]
        exact ih (d + 1) (by omega) (by omega)

/-- C3 counterexample: the claim as stated quantifies over every `Lock`
whose effective attempts bound is a finite `n ≥ 1`, but `attempts` and
`timeout` are independent stopping conditions — with `attempts = 2`, a
configured `timeout = 1` and elapsed time `5` after the first failed
attempt, `acquire` throws `E_LOCK_TIMEOUT` via the elapsed-time check after
exactly one `save` call, not after `n = 2` calls. -/
theorem acquire_attempts_preempted_by_timeout :
    acquireLoop (.fin 2) (some 1) none (fun _ => false) (fun _ => 0) (fun _ => 5) 10 0
      = .timeoutElapsed 1 ∧
    (AcquireResult.timeoutElapsed 1) ≠ .timeoutAttempts 2 := by
  decide

/-- C3 amended: for a finite effective attempts bound `n ≥ 1`, against a
store whose `save` always returns `false`, and provided the wall-clock
timeout condition does not fire at any attempt, `acquire` performs exactly
`n` `save` calls (the loop makes one per iteration and the result records
the final attempt index) and then throws `E_LOCK_TIMEOUT` via the
last-allowed-attempt check; it never returns successfully. -/
theorem acquire_exhausts_attempts (n : Nat) (hn : 1 ≤ n) (timeout ttl : Option Nat)
    (saveRes : Nat → Bool) (nowAt elapsedAt : Nat → Nat) (fuel : Nat) (hfuel : n ≤ fuel)
    (hsave : ∀ i, saveRes i = false)
    (htimeout : ∀ i, timeoutHit timeout (elapsedAt i) = false) :
    acquireLoop (.fin n) timeout ttl saveRes nowAt elapsedAt fuel 0 = .timeoutAttempts n :=
  acquireLoop_all_false n timeout ttl saveRes nowAt elapsedAt hsave htimeout fuel 0
    (by omega) (by omega)

/-- C3 amended, witness: `attempts = 5`, no timeout, always-`false` store:
exactly five attempts, then `E_LOCK_TIMEOUT`. -/
theorem acquire_exhausts_attempts_witness :
    acquireLoop (.fin 5) none none (fun _ => false) (fun _ => 0) (fun _ => 0) 6 0
      = .timeoutAttempts 5 :=
  acquire_exhausts_attempts 5 (by decide) none none (fun _ => false) (fun _ => 0)
    (fun _ => 0) 6 (by decide) (fun _ => rfl) (fun _ => rfl)

/-- C8: a `E_LOCK_TIMEOUT` raised by the wall-clock timeout condition is
only reachable after the `save` attempt of the same iteration has completed
and returned `false` — the elapsed-time check sits after the attempt and
before the inter-attempt sleep — so the recorded attempt count is at least
one and the final `save` reply was `false`. -/
theorem timeout_requires_failed_attempt (attemptsMax : AttemptsMax)
    (timeout ttl : Option Nat) (saveRes : Nat → Bool) (nowAt elapsedAt : Nat → Nat)
    (fuel d i : Nat)
    (h : acquireLoop attemptsMax timeout ttl saveRes nowAt elapsedAt fuel d
      = .timeoutElapsed i) :
    1 ≤ i ∧ saveRes i = false := by
  induction fuel generalizing d with
  | zero => simp [acquireLoop] at h
  | succ fuel ih =>
      unfold acquireLoop at h
      by_cases h1 : attemptsLt d attemptsMax
      · simp only [h1, if_true] at h
        by_cases h2 : saveRes (d + 1)
        · simp [h2] at h
        · simp only [h2, Bool.false_eq_true, if_false] at h
          by_cases h3 : attemptsEqMax (d + 1) attemptsMax
          · simp [h3] at h
          · simp only [h3, Bool.false_eq_true, if_false] at h
            by_cases h4 : timeoutHit timeout (elapsedAt (d + 1))
            · simp only [h4, if_true] at h
              cases h
              exact ⟨by omega, by simpa using h2⟩
            · simp only [h4, Bool.false_eq_true, if_false] at h
              exact ih (d + 1) h
      · simp [h1] at h

/-- C8 witness: a concrete run where the elapsed-timeout check fires at the
first attempt — the attempt count is one and that attempt returned
`false`. -/
theorem timeout_requires_failed_attempt_witness :
    1 ≤ 1 ∧ (fun _ => false : Nat → Bool) 1 = false :=
  timeout_requires_failed_attempt .inf (some 1) none (fun _ => false) (fun _ => 0)
    (fun _ => 9) 3 0 1 (by decide)

/-- C5: `extend` is atomic with respect to the lock's local state.  With a
resolvable duration `d`, if the store's `extend` throws, the local
`expirationTime` — and so `getRemainingTime` at every clock — is exactly
what it was before the call and the store's error propagates; only when the
store call succeeds is `expirationTime` set to `now + d`, with `now` read
just before the store call. -/
theorem extend_atomic_local_state (lockTtl expirationTime ttlArg : Option Nat)
    (now d : Nat) (hres : resolveExtendTtl lockTtl ttlArg = some d) :
    (∀ e : JsError,
       Lock.extendModel lockTtl expirationTime ttlArg (.error e) now
         = (.error e, expirationTime) ∧
       ∀ nowQ, Lock.getRemainingTime
           (Lock.extendModel lockTtl expirationTime ttlArg (.error e) now).2 nowQ
         = Lock.getRemainingTime expirationTime nowQ) ∧
    Lock.extendModel lockTtl expirationTime ttlArg (.ok ()) now = (.ok (), some (now + d)) := by
  unfold Lock.extendModel
  rw [hres]
  exact ⟨fun e => ⟨rfl, fun _ => rfl⟩, rfl⟩

/-- C5 witness: a store failure leaves `expirationTime` at `110`; a store
success moves it to `50 + 200`. -/
theorem extend_atomic_local_state_witness :
    Lock.extendModel (some 100) (some 110) (some 200) (.error .lockNotOwned) 50
      = (.error .lockNotOwned, some 110) ∧
    Lock.extendModel (some 100) (some 110) (some 200) (.ok ()) 50 = (.ok (), some (50 + 200)) :=
  ⟨((extend_atomic_local_state (some 100) (some 110) (some 200) 50 200 (by decide)).1
      .lockNotOwned).1,
   (extend_atomic_local_state (some 100) (some 110) (some 200) 50 200 (by decide)).2⟩

theorem resolveExtendTtl_ne_zero (lockTtl ttlArg : Option Nat) (d : Nat)
    (h : resolveExtendTtl lockTtl ttlArg = some d) : d ≠ 0 := by
  unfold resolveExtendTtl at h
  rcases ttlArg with _ | t
  · rcases lockTtl with _ | u
    · simp at h
    · by_cases hu : u = 0
      · simp [hu] at h
      · simp [hu] at h
        omega
  · by_cases ht : t = 0
    · rcases lockTtl with _ | u
      · simp [ht] at h
      · by_cases hu : u = 0
        · simp [ht, hu] at h
        · simp [ht, hu] at h
          omega
    · simp [ht] at h
      omega

theorem save_true_expiresAt (s : MemoryStore) (key owner : String) (ttl : Option Nat)
    (now1 now2 : Nat) (s1 : MemoryStore)
    (h : MemoryStore.save s key owner ttl now1 now2 = (true, s1)) :
    (mapGet s1.locks key).map MemoryLockEntry.expiresAt
      = some (computeExpiresAt now2 ttl) := by
  unfold MemoryStore.save at h
  rcases hE : s.getOrCreateForKey key owner with ⟨entry, sE⟩
  rw [hE] at h
  by_cases hl : (if isLockEntryExpired entry now1 then callReleaser entry else entry).locked
  · simp only [hl, if_true] at h
    cases h
  · simp only [hl, Bool.false_eq_true, if_false, Prod.mk.injEq, true_and] at h
    rw [← h]
    simp [mapGet_mapSet_self]

theorem extend_ok_expiresAt (s : MemoryStore) (key owner : String) (dur now : Nat)
    (s1 : MemoryStore) (h : MemoryStore.extend s key owner dur now = .ok s1) :
    (mapGet s1.locks key).map MemoryLockEntry.expiresAt
      = some (computeExpiresAt now (some dur)) := by
  unfold MemoryStore.extend at h
  cases hm : mapGet s.locks key with
  | none => rw [hm] at h; cases h
  | some e =>
      rw [hm] at h
      by_cases ho : e.owner = owner
      · simp only [ho, ne_eq, not_true_eq_false, if_false, Except.ok.injEq] at h
        rw [← h]
        simp [mapGet_mapSet_self]
      · simp [ho] at h

/-- C9 counterexample: the local estimate is *earlier*, not later, than the
store's recorded expiry.  One successful acquire attempt with ttl `100`,
local clock read `10` and store expiry read `15` (monotone) yields local
`expirationTime = 110` against store `expiresAt = 115`; an `extend` with
local read `20`, store read `23` and duration `50` yields local `70` against
store `73`.  In both cases `local ≥ store` fails. -/
theorem local_expiry_earlier_than_store :
    Lock.acquireAttemptMem "k" "o" (some 100) ⟨[]⟩ 10 12 15
      = some (some 110, ⟨[("k", ⟨true, true, true, "o", .fin 115⟩)]⟩) ∧
    ¬ (110 ≥ 115) ∧
    Lock.extendMem "k" "o" (some 100) (some 110) (some 50)
        ⟨[("k", ⟨true, true, true, "o", .fin 115⟩)]⟩ 20 23
      = (.ok (), some 70, ⟨[("k", ⟨true, true, true, "o", .fin 73⟩)]⟩) ∧
    ¬ (70 ≥ 73) := by
  decide

/-- C9 amended: under monotone clock reads (the lock's local read precedes
the store's read inside the same call), a successful acquire attempt or
extend with a numeric ttl leaves the local `expirationTime` *no later than*
the `expiresAt` the store recorded for that call. -/
theorem local_expiry_not_later_than_store (key owner : String) (s s2 : MemoryStore)
    (t : Nat) (ht : t ≠ 0) (nowLocal nowChk nowExp : Nat) (hmono : nowLocal ≤ nowExp)
    (lockTtl expirationTime ttlArg : Option Nat) (d nowL2 nowS2 : Nat)
    (hm2 : nowL2 ≤ nowS2) (hd : resolveExtendTtl lockTtl ttlArg = some d) :
    (∀ le s1, Lock.acquireAttemptMem key owner (some t) s nowLocal nowChk nowExp
        = some (le, s1) →
      le = some (nowLocal + t) ∧
      (mapGet s1.locks key).map MemoryLockEntry.expiresAt = some (.fin (nowExp + t)) ∧
      nowLocal + t ≤ nowExp + t) ∧
    (∀ le2 s3, Lock.extendMem key owner lockTtl expirationTime ttlArg s2 nowL2 nowS2
        = (.ok (), le2, s3) →
      le2 = some (nowL2 + d) ∧
      (mapGet s3.locks key).map MemoryLockEntry.expiresAt = some (.fin (nowS2 + d)) ∧
      nowL2 + d ≤ nowS2 + d) := by
  constructor
  · intro le s1 hA
    unfold Lock.acquireAttemptMem at hA
    cases hS : MemoryStore.save s key owner (some t) nowChk nowExp with
    | mk b sS =>
        rw [hS] at hA
        cases b with
        | false => simp at hA
        | true =>
            simp only [Option.some.injEq, Prod.mk.injEq] at hA
            obtain ⟨hle, hs1⟩ := hA
            subst hs1
            have hexp := save_true_expiresAt s key owner (some t) nowChk nowExp sS hS
            have hcomp : computeExpiresAt nowExp (some t) = .fin (nowExp + t) := by
              unfold computeExpiresAt; simp [ht]
            refine ⟨?_, by rw [hexp, hcomp], by omega⟩
            rw [← hle]
            unfold localExpirationTime
            simp [ht]
  · intro le2 s3 hX
    unfold Lock.extendMem at hX
    cases hS : MemoryStore.extend s2 key owner d nowS2 with
    | error e =>
        simp only [hd, hS, Prod.mk.injEq] at hX
        exact Except.noConfusion hX.1
    | ok sS =>
        simp only [hd, hS, Prod.mk.injEq, true_and] at hX
        obtain ⟨hle, hs3⟩ := hX
        subst hs3
        have hexp := extend_ok_expiresAt s2 key owner d nowS2 sS hS
        have hd0 := resolveExtendTtl_ne_zero lockTtl ttlArg d hd
        have hcomp : computeExpiresAt nowS2 (some d) = .fin (nowS2 + d) := by
          unfold computeExpiresAt; simp [hd0]
        exact ⟨hle.symm, by rw [hexp, hcomp], by omega⟩

/-- C9 amended, witness: the acquire branch at the counterexample's numbers,
`110 = 10 + 100 ≤ 15 + 100 = 115`. -/
theorem local_expiry_not_later_than_store_witness :
    (some 110 : Option Nat) = some (10 + 100) ∧
    (mapGet (MemoryStore.mk [("k", ⟨true, true, true, "o", .fin 115⟩)]).locks "k").map
        MemoryLockEntry.expiresAt = some (.fin (15 + 100)) ∧
    10 + 100 ≤ 15 + 100 :=
  (local_expiry_not_later_than_store "k" "o" ⟨[]⟩
      ⟨[("k", ⟨true, true, true, "o", .fin 115⟩)]⟩ 100 (by decide) 10 12 15 (by decide)
      (some 100) (some 110) (some 50) 50 20 23 (by decide) (by decide)).1
    (some 110) ⟨[("k", ⟨true, true, true, "o", .fin 115⟩)]⟩ (by decide)

/-- C4 counterexample: a release error raised during cleanup *does* mask the
callback's in-flight error.  The entry for `"k"` was created by owner `"a"`
and released; owner `"b"`'s acquisition inside `run` succeeds (the mutex is
free), the callback throws `callbackError "boom"`, and the cleanup
`release` → `MemoryStore.delete` throws `E_LOCK_NOT_OWNED` (the entry still
records owner `"a"`); per JS `try/finally`, `run` rejects with
`E_LOCK_NOT_OWNED`, not with the callback's error as the claim states. -/
theorem run_release_error_masks_callback_error :
    Lock.run
      (fun s => match MemoryStore.save s "k" "b" none 0 0 with
        | (true, s1) => (Except.ok (), s1)
        | (false, s1) => (Except.error JsError.lockTimeout, s1))
      (fun s => ((Except.error (JsError.callbackError "boom") : Except JsError Nat), s))
      (Lock.releaseMem "k" "b")
      ⟨[("k", ⟨false, true, false, "a", .inf⟩)]⟩
      = (.error .lockNotOwned, ⟨[("k", ⟨true, true, true, "a", .inf⟩)]⟩) ∧
    (Except.error JsError.lockNotOwned : Except JsError Nat)
      ≠ .error (.callbackError "boom") := by
  decide

/-- C4 amended: `run` invokes the callback only after a successful
acquisition and always invokes `release` afterwards on the state the body
left behind, whether the callback returned or threw.  When the callback
succeeds and release succeeds, the callback's result is returned; when the
callback throws and release completes, the callback's error propagates
after release; when release itself throws during cleanup, the release
error propagates instead, replacing the callback's error (JS
`try/finally`). -/
theorem run_releases_on_every_path {E T S : Type} (acq : S → Except E Unit × S)
    (cb : S → Except E T × S) (rel : S → Except E Unit × S) (s sa : S)
    (hacq : acq s = (.ok (), sa)) :
    (∀ t sc sr, cb sa = (.ok t, sc) → rel sc = (.ok (), sr) →
        Lock.run acq cb rel s = (.ok t, sr)) ∧
    (∀ e sc sr, cb sa = (.error e, sc) → rel sc = (.ok (), sr) →
        Lock.run acq cb rel s = (.error e, sr)) ∧
    (∀ e sc er sr, cb sa = (.error e, sc) → rel sc = (.error er, sr) →
        Lock.run acq cb rel s = (.error er, sr)) := by
  refine ⟨?_, ?_, ?_⟩
  · intro t sc sr hcb hrel
    simp [Lock.run, hacq, hcb, hrel]
  · intro e sc sr hcb hrel
    simp [Lock.run, hacq, hcb, hrel]
  · intro e sc er sr hcb hrel
    simp [Lock.run, hacq, hcb, hrel]

/-- C4 amended, witness: on a fresh store, `run` with a throwing callback
releases the lock (`exists` reports `false` afterwards) and the callback's
error propagates after the successful release. -/
theorem run_releases_on_every_path_witness :
    Lock.run
      (fun s => match MemoryStore.save s "k" "o" none 0 0 with
        | (true, s1) => (Except.ok (), s1)
        | (false, s1) => (Except.error JsError.lockTimeout, s1))
      (fun s => ((Except.error (JsError.callbackError "cbfail") : Except JsError Nat), s))
      (Lock.releaseMem "k" "o") ⟨[]⟩
      = (.error (.callbackError "cbfail"), ⟨[("k", ⟨false, true, false, "o", .inf⟩)]⟩) ∧
    MemoryStore.existsKey ⟨[("k", ⟨false, true, false, "o", .inf⟩)]⟩ "k" 99 = false :=
  ⟨(run_releases_on_every_path
      (fun s => match MemoryStore.save s "k" "o" none 0 0 with
        | (true, s1) => (Except.ok (), s1)
        | (false, s1) => (Except.error JsError.lockTimeout, s1))
      (fun s => ((Except.error (JsError.callbackError "cbfail") : Except JsError Nat), s))
      (Lock.releaseMem "k" "o") ⟨[]⟩ ⟨[("k", ⟨true, true, true, "o", .inf⟩)]⟩
      (by decide)).2.1 (.callbackError "cbfail")
      ⟨[("k", ⟨true, true, true, "o", .inf⟩)]⟩
      ⟨[("k", ⟨false, true, false, "o", .inf⟩)]⟩ (by decide) (by decide),
   by decide⟩

/-- C10 counterexample: the claim's configuration is impossible — on a
fresh `MemoryStore` the very first `save` always grants the lock (with or
without a ttl), so no `Lock` on a fresh `MemoryStore` has a `save` that
never grants, and `acquire` cannot throw `E_LOCK_TIMEOUT` there. -/
theorem fresh_store_save_grants :
    (MemoryStore.save ⟨[]⟩ "key" "own" (some 30) 2 2).1 = true ∧
    (MemoryStore.save ⟨[]⟩ "key" "own" none 2 2).1 = true := by
  decide

theorem acquireMem_held_unexpired (key owner : String) (ttl : Option Nat) (n : Nat)
    (timeout : Option Nat) (nowChk nowExp elapsedAt : Nat → Nat)
    (s : MemoryStore) (e : MemoryLockEntry)
    (hlook : mapGet s.locks key = some e) (hheld : e.locked = true)
    (hexp : e.expiresAt = .inf) :
    ∀ fuel d, d < n → n - d ≤ fuel →
      Lock.acquireMem key owner ttl (.fin n) timeout nowChk nowExp elapsedAt fuel d s
        = (.error .lockTimeout, s) := by
  intro fuel
  induction fuel with
  | zero => intro d hd hf; omega
  | succ fuel ih =>
      intro d hd hf
      unfold Lock.acquireMem
      have h1 : attemptsLt d (.fin n) = true := by simp [attemptsLt, hd]
      have hlive : isLockEntryExpired e (nowChk (d + 1)) = false := by
        unfold isLockEntryExpired
        rw [hexp]
      have hsv := save_of_held_unexpired s key owner ttl (nowChk (d + 1)) (nowExp (d + 1))
        e hlook hlive hheld
      by_cases hdn : d + 1 = n
      · subst hdn
        have h2 : attemptsEqMax (d + 1) (.fin (d + 1)) = true := by simp [attemptsEqMax]
        simp [h1, hsv, h2]
      · have h2 : attemptsEqMax (d + 1) (.fin n) = false := by simp [attemptsEqMax, hdn]
        by_cases h4 : timeoutHit timeout (elapsedAt (d + 1))
        · simp [h1, hsv, h2, h4]
        · simp [h1, hsv, h2, h4]
          exact ih (d + 1) (by omega) (by omega)

/-- C10 amended: when the key's entry is held by a different owner with an
unbounded lease (`expiresAt` infinite) — the situation in which every `save`
by this lock returns `false` (on a *fresh* `MemoryStore` this is impossible:
the first `save` always grants) — a finite-attempts `acquire` inside `run`
throws `E_LOCK_TIMEOUT`, the cleanup `release` still runs, that release
throws `E_LOCK_NOT_OWNED` (this lock's owner does not own the entry), and
per JS `try/finally` `run` rejects with the release's `E_LOCK_NOT_OWNED`
in place of the acquire's `E_LOCK_TIMEOUT`. -/
theorem run_masks_timeout_with_not_owned (key owner : String) (ttl : Option Nat)
    (n : Nat) (hn : 1 ≤ n) (fuel : Nat) (hfuel : n ≤ fuel) (timeout : Option Nat)
    (nowChk nowExp elapsedAt : Nat → Nat) {T : Type}
    (cb : MemoryStore → Except JsError T × MemoryStore)
    (s : MemoryStore) (e : MemoryLockEntry)
    (hlook : mapGet s.locks key = some e)
    (hheld : e.locked = true)
    (hexp : e.expiresAt = .inf)
    (howner : e.owner ≠ owner) :
    Lock.acquireMem key owner ttl (.fin n) timeout nowChk nowExp elapsedAt fuel 0 s
      = (.error .lockTimeout, s) ∧
    Lock.releaseMem key owner s = (.error .lockNotOwned, s) ∧
    Lock.run (Lock.acquireMem key owner ttl (.fin n) timeout nowChk nowExp elapsedAt fuel 0)
        cb (Lock.releaseMem key owner) s
      = (.error .lockNotOwned, s) := by
  have hacq := acquireMem_held_unexpired key owner ttl n timeout nowChk nowExp elapsedAt
    s e hlook hheld hexp fuel 0 (by omega) (by omega)
  have hrel : Lock.releaseMem key owner s = (.error .lockNotOwned, s) := by
    unfold Lock.releaseMem MemoryStore.delete
    rw [hlook]
    by_cases hr : e.hasReleaser
    · simp [hr, howner]
    · simp [hr]
  refine ⟨hacq, hrel, ?_⟩
  simp [Lock.run, hacq, hrel]

/-- C10 amended, witness: key `"k"` held by `"a"` without ttl; owner `"b"`
with `attempts = 2` runs `run` — the result is `E_LOCK_NOT_OWNED`, not the
acquire's `E_LOCK_TIMEOUT`. -/
theorem run_masks_timeout_with_not_owned_witness :
    Lock.run
      (Lock.acquireMem "k" "b" none (.fin 2) none (fun _ => 0) (fun _ => 0) (fun _ => 0) 3 0)
      (fun s => ((Except.ok 0 : Except JsError Nat), s)) (Lock.releaseMem "k" "b")
      ⟨[("k", ⟨true, true, true, "a", .inf⟩)]⟩
      = (.error .lockNotOwned, ⟨[("k", ⟨true, true, true, "a", .inf⟩)]⟩) :=
  (run_masks_timeout_with_not_owned "k" "b" none 2 (by decide) 3 (by decide) none
      (fun _ => 0) (fun _ => 0) (fun _ => 0)
      (fun s => ((Except.ok 0 : Except JsError Nat), s))
      ⟨[("k", ⟨true, true, true, "a", .inf⟩)]⟩ ⟨true, true, true, "a", .inf⟩
      (by decide) rfl rfl (by decide)).2.2
